import Mathlib

/-!
Verification of the ECOD outlier detector (`src/pytod/models/ecod.py`).

The sample matrices are embedded as total functions `Fin n → Fin d → ℚ`
(floating-point inputs modelled as exact rationals), and the score pipeline
of `ECOD.fit` is embedded line by line: the paired calls to `ecdf_multiple`
on `X` and `-X`, the in-place negative-log overwrite of `U_l` and `U_r`,
the elementwise maximum `O`, and the stored
`decision_scores_ = torch.sum(O, dim=1) * -1`.

Parts of the repository referenced by `ecod.py` but absent from the sources
(`ecdf_multiple` from `basic_operators.py`, the calibration step
`BaseDetector._process_decision_scores` from `base.py`, and the scoring body
of `decision_function`, which breaks off in the source after the `X_train`
concatenation check) are modelled from the specification; each such
definition carries a doc comment saying so.
-/

namespace PyTod

/-- A sample matrix with `n` rows (observations) and `d` columns (features);
entries are exact rationals standing for the floating-point inputs. -/
abbrev Mat (n d : ℕ) : Type := Fin n → Fin d → ℚ

/-- Modelled from the spec: the `EmpiricalCDF` component (§4.1) underlying
`ecdf_multiple` from `pytod/models/basic_operators.py`, which is not among
the sources. Given a frozen reference column `R` of size `nref` and a query
value `q`, return the number of reference entries `r` with `r ≤ q`, divided
by `nref`. -/
def empiricalCDF {nref : ℕ} (R : Fin nref → ℚ) (q : ℚ) : ℚ :=
  ((Finset.univ.filter (fun r => R r ≤ q)).card : ℚ) / (nref : ℚ)

/-- Elementwise negation of a matrix, the `-X` of the source. -/
def negMat {n d : ℕ} (X : Mat n d) : Mat n d := fun i f => -(X i f)

/-- Modelled from the spec: `ecdf_multiple(X)` from
`pytod/models/basic_operators.py` (not among the sources) evaluates, per
feature column, the empirical CDF of that column at the column's own
entries, batched over all rows and features (§4.1). -/
def ecdf_multiple {n d : ℕ} (X : Mat n d) : Fin n → Fin d → ℚ :=
  fun i f => empiricalCDF (fun r => X r f) (X i f)

/-- The ECOD detector's constructor parameters (`ecod.py`, `__init__`). -/
structure ECOD where
  contamination : ℚ
  n_neighbors : ℕ
  device : String

/-- The attributes `ECOD.fit` stores on the detector: the overwritten
`U_l` and `U_r` (negative logs of the tail probabilities), the extremity
matrix `O`, the training scores, and the calibration outputs. -/
structure ECODState (n d : ℕ) where
  U_l : Fin n → Fin d → ℝ
  U_r : Fin n → Fin d → ℝ
  O : Fin n → Fin d → ℝ
  decision_scores_ : Fin n → ℝ
  threshold_ : ℝ
  labels_ : Fin n → ℕ

/-- Modelled from the spec: the number of training rows the calibration
collaborator labels anomalous, the contamination fraction of the sample
count rounded to the nearest integer (§8). -/
def nOutliers (n : ℕ) (c : ℚ) : ℕ := (⌊(n : ℚ) * c + 1 / 2⌋).toNat

/-- Modelled from the spec: the binary labels produced by
`BaseDetector._process_decision_scores` (`pytod/models/base.py`, not among
the sources): label 1 marks the `k` samples with the most extreme scores
under the declared sign convention, i.e. the `k` highest scores (§6, §8). -/
noncomputable def labelOf {n : ℕ} (scores : Fin n → ℝ) (k : ℕ) (i : Fin n) : ℕ :=
  if (Finset.univ.filter (fun j => scores i < scores j)).card < k then 1 else 0

/-- Modelled from the spec: the calibration threshold separating the
labelled samples (§6); taken as the infimum of the labelled samples'
scores, a function of the score vector and `k` alone. -/
noncomputable def threshold_of {n : ℕ} (scores : Fin n → ℝ) (k : ℕ) : ℝ :=
  sInf (scores '' {i | labelOf scores k i = 1})

/-- The per-(row, feature) extremity matrix `self.O` of `ECOD.fit`
(`ecod.py`): the elementwise maximum of the negative logs of the two
tail-probability matrices `ecdf_multiple(X)` and `ecdf_multiple(-X)`. -/
noncomputable def fitO {n d : ℕ} (X : Mat n d) (i : Fin n) (f : Fin d) : ℝ :=
  max (-Real.log ((ecdf_multiple X i f : ℝ)))
      (-Real.log ((ecdf_multiple (negMat X) i f : ℝ)))

/-- The row sums `torch.sum(self.O, dim=1)` computed by `ECOD.fit`, before
the final sign flip: the raw aggregate extremity of each row. -/
noncomputable def rawSum {n d : ℕ} (X : Mat n d) (i : Fin n) : ℝ :=
  ∑ f, fitO X i f

/-- `self.decision_scores_` as stored by `ECOD.fit` (`ecod.py`): the row
sums of `O` multiplied by `-1`. -/
noncomputable def decision_scores {n d : ℕ} (X : Mat n d) (i : Fin n) : ℝ :=
  rawSum X i * (-1)

/-- `ECOD.fit` (`ecod.py`): stores `U_l`, `U_r` (after the in-place
negative-log overwrite), `O`, `decision_scores_`, and the threshold and
labels produced by the spec-modelled calibration step
`_process_decision_scores`. The `return_time` flag and the device drive
only the GPU timing instrumentation and touch no stored score. -/
noncomputable def ECOD.fitState (model : ECOD) {n d : ℕ} (X : Mat n d)
    (return_time : Bool) : ECODState n d :=
  ⟨fun i f => -Real.log ((ecdf_multiple X i f : ℝ)),
   fun i f => -Real.log ((ecdf_multiple (negMat X) i f : ℝ)),
   fun i f => fitO X i f,
   fun i => decision_scores X i,
   threshold_of (decision_scores X) (nOutliers n model.contamination),
   labelOf (decision_scores X) (nOutliers n model.contamination)⟩

/-- `ECOD.fit` with Python's exception channel made explicit: the body of
`fit` in the source performs no input validation and contains no raise path
(the `check_array` call is commented out), so it returns a fitted state on
every input. -/
noncomputable def ECOD.fitE (model : ECOD) {n d : ℕ} (X : Mat n d)
    (return_time : Bool) : Except String (ECODState n d) :=
  Except.ok (model.fitState X return_time)

/-- Modelled from the spec: `ECOD.decision_function` (§4.5). The body in
`ecod.py` breaks off after the `X_train` concatenation check with no
scoring code, so the scoring pipeline is taken from the spec: each query
row is scored against the frozen training reference columns by the pipeline
and sign convention of `fit`, the reference being neither refit nor
extended with the query's values. -/
noncomputable def decision_function {n d m : ℕ} (Xtrain : Mat n d)
    (Y : Mat m d) (i : Fin m) : ℝ :=
  (∑ f, max (-Real.log ((empiricalCDF (fun r => Xtrain r f) (Y i f) : ℝ)))
            (-Real.log ((empiricalCDF (fun r => -(Xtrain r f)) (-(Y i f)) : ℝ))))
    * (-1)

/-- The score of one query row against the frozen reference: a function of
the training columns and that single row alone. -/
noncomputable def scoreRow {n d : ℕ} (Xtrain : Mat n d) (y : Fin d → ℚ) : ℝ :=
  (∑ f, max (-Real.log ((empiricalCDF (fun r => Xtrain r f) (y f) : ℝ)))
            (-Real.log ((empiricalCDF (fun r => -(Xtrain r f)) (-(y f)) : ℝ))))
    * (-1)

/-- The matrix obtained by permuting the rows of `Y` by `π`: row `j` of `Y`
is moved to position `π j`, so the row at position `i` is row `π⁻¹ i`. -/
def permRows {m d : ℕ} (π : Equiv.Perm (Fin m)) (Y : Mat m d) : Mat m d :=
  fun i => Y (π.symm i)

/-- Claim-side left tail probability: the empirical CDF of column `f` of
`X`, evaluated at `X i f`. -/
def U_left {n d : ℕ} (X : Mat n d) (i : Fin n) (f : Fin d) : ℚ :=
  empiricalCDF (fun r => X r f) (X i f)

/-- Claim-side right tail probability: the empirical CDF of the negated
column `f` of `X`, evaluated at `-(X i f)`. -/
def U_right {n d : ℕ} (X : Mat n d) (i : Fin n) (f : Fin d) : ℚ :=
  empiricalCDF (fun r => -(X r f)) (-(X i f))

/-- Claim-side extremity: `max (-ln U_left) (-ln U_right)`. -/
noncomputable def O_claim {n d : ℕ} (X : Mat n d) (i : Fin n) (f : Fin d) : ℝ :=
  max (-Real.log ((U_left X i f : ℝ))) (-Real.log ((U_right X i f : ℝ)))

/-- Claim-side raw aggregate: the sum of the extremities over the features. -/
noncomputable def raw_aggregate {n d : ℕ} (X : Mat n d) (i : Fin n) : ℝ :=
  ∑ f, O_claim X i f

/-- The smaller of the two tail probabilities at one (row, feature), a
rational quantity used to decide score comparisons exactly. -/
def minTail {n d : ℕ} (X : Mat n d) (i : Fin n) (f : Fin d) : ℚ :=
  min (ecdf_multiple X i f) (ecdf_multiple (negMat X) i f)

/-- The product over the features of the smaller tail probabilities; the
raw aggregate of a row is exactly its negated natural log. -/
def prodTail {n d : ℕ} (X : Mat n d) (i : Fin n) : ℚ :=
  ∏ f, minTail X i f

/-- The number of reference entries of column `f` that are at most the row
entry `X i f`: the numerator of the empirical CDF. -/
def cntLe {n d : ℕ} (X : Mat n d) (i : Fin n) (f : Fin d) : ℕ :=
  (Finset.univ.filter (fun r => X r f ≤ X i f)).card

/-- Nat-level minimum tail count, used to decide score comparisons without
rational arithmetic. -/
def minCnt {n d : ℕ} (X : Mat n d) (i : Fin n) (f : Fin d) : ℕ :=
  min (cntLe X i f) (cntLe (negMat X) i f)

/-- The 3-row, 1-feature matrix with entries 0, 1, 2. -/
def X3 : Mat 3 1 := fun i _ => (i.val : ℚ)

/-- The 10-row, 1-feature training matrix of the spec's concrete scenario,
with entries 0 through 9. -/
def X10 : Mat 10 1 := fun i _ => (i.val : ℚ)

/-- The 2-row, 1-feature matrix with entries 0 and 1. -/
def X2a : Mat 2 1 := fun i _ => if i.val = 0 then 0 else 1

/-- The 2-row, 1-feature matrix with entries 0 and 2. -/
def X2b : Mat 2 1 := fun i _ => if i.val = 0 then 0 else 2

/-- The 1-row, 1-feature matrix holding a single 0. -/
def X1 : Mat 1 1 := fun _ _ => 0

/-- A detector built with the constructor defaults of `ecod.py`:
contamination 0.1, 5 neighbours, device cuda:0. -/
def ecodDefault : ECOD := ⟨1 / 10, 5, "cuda:0"⟩

/-- A detector with contamination 0.2, the setting of the spec's concrete
scenario. -/
def ecodScenario : ECOD := ⟨1 / 5, 5, "cuda:0"⟩

theorem ecdf_multiple_pos {n d : ℕ} (X : Mat n d) (i : Fin n) (f : Fin d) :
    0 < ecdf_multiple X i f := by
  have hn : 0 < (n : ℚ) := by exact_mod_cast i.pos
  have hmem : i ∈ Finset.univ.filter (fun r => X r f ≤ X i f) := by
    simp
  have hcard : 0 < ((Finset.univ.filter (fun r => X r f ≤ X i f)).card : ℚ) := by
    exact_mod_cast Finset.card_pos.mpr ⟨i, hmem⟩
  exact div_pos hcard hn

theorem ecdf_multiple_le_one {n d : ℕ} (X : Mat n d) (i : Fin n) (f : Fin d) :
    ecdf_multiple X i f ≤ 1 := by
  have hn : 0 < (n : ℚ) := by exact_mod_cast i.pos
  have hcard : ((Finset.univ.filter (fun r => X r f ≤ X i f)).card : ℚ) ≤ (n : ℚ) := by
    exact_mod_cast (Finset.card_filter_le _ _).trans_eq (Finset.card_fin n)
  exact (div_le_one hn).mpr hcard

theorem minTail_pos {n d : ℕ} (X : Mat n d) (i : Fin n) (f : Fin d) :
    0 < minTail X i f :=
  lt_min (ecdf_multiple_pos X i f) (ecdf_multiple_pos (negMat X) i f)

theorem minTail_le_one {n d : ℕ} (X : Mat n d) (i : Fin n) (f : Fin d) :
    minTail X i f ≤ 1 :=
  (min_le_left _ _).trans (ecdf_multiple_le_one X i f)

theorem prodTail_pos {n d : ℕ} (X : Mat n d) (i : Fin n) :
    0 < prodTail X i :=
  Finset.prod_pos fun f _ => minTail_pos X i f

theorem ecdf_multiple_eq_cnt {n d : ℕ} (X : Mat n d) (i : Fin n) (f : Fin d) :
    ecdf_multiple X i f = (cntLe X i f : ℚ) / (n : ℚ) := rfl

theorem minTail_eq_cnt {n d : ℕ} (X : Mat n d) (i : Fin n) (f : Fin d) :
    minTail X i f = (minCnt X i f : ℚ) / (n : ℚ) := by
  unfold minTail minCnt
  rw [ecdf_multiple_eq_cnt, ecdf_multiple_eq_cnt,
    min_div_div_right (by positivity : (0 : ℚ) ≤ (n : ℚ)), Nat.cast_min]

theorem prodTail_single_lt_iff {n : ℕ} (X : Mat n 1) (i j : Fin n) :
    prodTail X i < prodTail X j ↔ minCnt X i 0 < minCnt X j 0 := by
  have hn : (0 : ℚ) < (n : ℚ) := by exact_mod_cast i.pos
  unfold prodTail
  rw [Fin.prod_univ_one, Fin.prod_univ_one, minTail_eq_cnt, minTail_eq_cnt,
    div_lt_div_iff_of_pos_right hn, Nat.cast_lt]

theorem fitO_eq_neg_log_minTail {n d : ℕ} (X : Mat n d) (i : Fin n) (f : Fin d) :
    fitO X i f = -Real.log ((minTail X i f : ℝ)) := by
  have ha : (0 : ℝ) < (ecdf_multiple X i f : ℝ) := by
    exact_mod_cast ecdf_multiple_pos X i f
  have hb : (0 : ℝ) < (ecdf_multiple (negMat X) i f : ℝ) := by
    exact_mod_cast ecdf_multiple_pos (negMat X) i f
  unfold fitO minTail
  rcases le_total (ecdf_multiple X i f) (ecdf_multiple (negMat X) i f) with h | h
  · rw [min_eq_left h, max_eq_left]
    have : Real.log (ecdf_multiple X i f : ℝ) ≤ Real.log (ecdf_multiple (negMat X) i f : ℝ) :=
      (Real.log_le_log_iff ha hb).mpr (by exact_mod_cast h)
    linarith
  · rw [min_eq_right h, max_eq_right]
    have : Real.log (ecdf_multiple (negMat X) i f : ℝ) ≤ Real.log (ecdf_multiple X i f : ℝ) :=
      (Real.log_le_log_iff hb ha).mpr (by exact_mod_cast h)
    linarith

theorem rawSum_eq_neg_log_prodTail {n d : ℕ} (X : Mat n d) (i : Fin n) :
    rawSum X i = -Real.log ((prodTail X i : ℝ)) := by
  unfold rawSum prodTail
  push_cast
  rw [Real.log_prod _ _ (fun f _ => by
    have := minTail_pos X i f
    have h : (0 : ℝ) < (minTail X i f : ℝ) := by exact_mod_cast this
    exact ne_of_gt h)]
  rw [← Finset.sum_neg_distrib]
  exact Finset.sum_congr rfl fun f _ => fitO_eq_neg_log_minTail X i f

theorem rawSum_lt_iff {n d : ℕ} (X : Mat n d) (i j : Fin n) :
    rawSum X i < rawSum X j ↔ prodTail X j < prodTail X i := by
  have hi : (0 : ℝ) < (prodTail X i : ℝ) := by exact_mod_cast prodTail_pos X i
  have hj : (0 : ℝ) < (prodTail X j : ℝ) := by exact_mod_cast prodTail_pos X j
  rw [rawSum_eq_neg_log_prodTail, rawSum_eq_neg_log_prodTail, neg_lt_neg_iff,
    Real.log_lt_log_iff hj hi, Rat.cast_lt]

theorem decision_scores_lt_iff {n d : ℕ} (X : Mat n d) (i j : Fin n) :
    decision_scores X i < decision_scores X j ↔ prodTail X i < prodTail X j := by
  unfold decision_scores
  rw [mul_neg_one, mul_neg_one, neg_lt_neg_iff, rawSum_lt_iff]

theorem labelOf_decision_scores {n d : ℕ} (X : Mat n d) (k : ℕ) (i : Fin n) :
    labelOf (decision_scores X) k i =
      if (Finset.univ.filter (fun j => prodTail X i < prodTail X j)).card < k
        then 1 else 0 := by
  unfold labelOf
  have h : (Finset.univ.filter fun j => decision_scores X i < decision_scores X j)
      = (Finset.univ.filter fun j => prodTail X i < prodTail X j) :=
    Finset.filter_congr fun j _ => by simpa using decision_scores_lt_iff X i j
  rw [h]

/-- C1: evaluation of the code at the failing input. On the training matrix
with rows 0, 1, 2, row 0 is strictly more extreme than row 1 under the
per-feature tail analysis (strictly larger raw aggregate extremity), yet
`fit` stores a strictly lower score for it, because `decision_scores_` is
the row sum of `O` multiplied by -1. The declared sign convention "higher
score means more abnormal" therefore fails on the stored scores. -/
theorem C1_sign_flip_eval :
    rawSum X3 1 < rawSum X3 0 ∧ decision_scores X3 0 < decision_scores X3 1 :=
  ⟨(rawSum_lt_iff X3 1 0).mpr ((prodTail_single_lt_iff X3 0 1).mpr (by decide)),
   (decision_scores_lt_iff X3 0 1).mpr ((prodTail_single_lt_iff X3 0 1).mpr (by decide))⟩

/-- C2: evaluation of the spec's concrete scenario (single feature 0..9,
contamination 0.2). The first half of the claim holds: rows 0 and 9 are
jointly the strictly highest raw aggregates. The second half fails: because
of the stored sign flip, the rows labelled anomalous are 4 and 5, the most
central values, not 0 and 9. -/
theorem C2_scenario_eval :
    (∀ i : Fin 10, i = 0 ∨ i = 9 ∨
      (rawSum X10 i < rawSum X10 0 ∧ rawSum X10 i < rawSum X10 9)) ∧
    (∀ i : Fin 10, ((ecodScenario.fitState X10 false).labels_ i = 1 ↔ (i = 4 ∨ i = 5))) := by
  constructor
  · intro i
    have hd : i = 0 ∨ i = 9 ∨
        (minCnt X10 0 0 < minCnt X10 i 0 ∧ minCnt X10 9 0 < minCnt X10 i 0) := by
      revert i; decide
    rcases hd with h | h | ⟨h1, h2⟩
    · exact Or.inl h
    · exact Or.inr (Or.inl h)
    · exact Or.inr (Or.inr
        ⟨(rawSum_lt_iff X10 i 0).mpr ((prodTail_single_lt_iff X10 0 i).mpr h1),
         (rawSum_lt_iff X10 i 9).mpr ((prodTail_single_lt_iff X10 9 i).mpr h2)⟩)
  · intro i
    have hk : nOutliers 10 ecodScenario.contamination = 2 := by
      show nOutliers 10 (1 / 5) = 2
      unfold nOutliers
      norm_num
      rfl
    have hl : (ecodScenario.fitState X10 false).labels_ i
        = labelOf (decision_scores X10) 2 i := by
      show labelOf (decision_scores X10) (nOutliers 10 ecodScenario.contamination) i
          = labelOf (decision_scores X10) 2 i
      rw [hk]
    rw [hl, labelOf_decision_scores]
    have hfil : (Finset.univ.filter (fun j2 => prodTail X10 i < prodTail X10 j2))
        = (Finset.univ.filter (fun j2 => minCnt X10 i 0 < minCnt X10 j2 0)) :=
      Finset.filter_congr fun j2 _ => by simpa using prodTail_single_lt_iff X10 i j2
    rw [hfil]
    have hall : ∀ j : Fin 10,
        ((if (Finset.univ.filter (fun j2 => minCnt X10 j 0 < minCnt X10 j2 0)).card < 2
          then (1 : ℕ) else 0) = 1 ↔ (j = 4 ∨ j = 5)) := by decide
    exact hall i

/-- C3: `fit` computes the per-(observation, feature) extremity as the
maximum of the negated natural logs of the left tail probability (empirical
CDF of the column at the observation's value) and the right tail
probability (empirical CDF of the negated column at the negated value), and
the raw aggregate of a row is the sum of its extremities over the features. -/
theorem C3_fit_formula (model : ECOD) (rt : Bool) {n d : ℕ} (X : Mat n d)
    (i : Fin n) (f : Fin d) :
    (model.fitState X rt).O i f = O_claim X i f ∧
    (∑ g, (model.fitState X rt).O i g) = raw_aggregate X i :=
  ⟨rfl, rfl⟩

/-- Witness for C3 at a concrete input. -/
theorem C3_fit_formula_witness :
    (ecodDefault.fitState X3 false).O 0 0 = O_claim X3 0 0 ∧
    (∑ g, (ecodDefault.fitState X3 false).O 0 g) = raw_aggregate X3 0 :=
  C3_fit_formula ecodDefault false X3 0 0

/-- C4: `decision_function` yields one real score per query row, indexed in
the row order of the input, and each row's score equals `scoreRow` of the
frozen training reference and that single row — so the score is computed
against the frozen reference alone, neither refit nor extended with the
query's values and independent of the other query rows. -/
theorem C4_decision_function_rowwise {n d m : ℕ} (Xtrain : Mat n d)
    (Y : Mat m d) (i : Fin m) :
    decision_function Xtrain Y i = scoreRow Xtrain (Y i) := rfl

/-- Witness for C4 at a concrete input. -/
theorem C4_decision_function_rowwise_witness :
    decision_function X3 X10 0 = scoreRow X3 (X10 0) :=
  C4_decision_function_rowwise X3 X10 0

/-- C5: scoring the exact training matrix again through `decision_function`
reproduces the cached training score vector `decision_scores_` (here
exactly, the embedding computing in exact arithmetic). -/
theorem C5_train_consistency (model : ECOD) (rt : Bool) {n d : ℕ}
    (X : Mat n d) (i : Fin n) :
    decision_function X X i = (model.fitState X rt).decision_scores_ i := rfl

/-- Witness for C5 at a concrete input. -/
theorem C5_train_consistency_witness :
    decision_function X3 X3 0 = (ecodDefault.fitState X3 false).decision_scores_ 0 :=
  C5_train_consistency ecodDefault false X3 0

/-- C6: evaluation of the code at the failing input. `fit` performs no
input validation (the `check_array` call is commented out in the source)
and has no raise path, so on a 1-row matrix it succeeds instead of raising
`InvalidInputError`, storing the score 0 for the single row; it likewise
succeeds on every input, constant-valued features included. -/
theorem C6_no_validation_eval :
    (ecodDefault.fitE X1 false).isOk = true ∧
    (ecodDefault.fitState X1 false).decision_scores_ 0 = 0 ∧
    (∀ (n d : ℕ) (X : Mat n d) (model : ECOD) (rt : Bool),
      (model.fitE X rt).isOk = true) := by
  refine ⟨rfl, ?_, fun n d X model rt => rfl⟩
  show decision_scores X1 0 = 0
  have h1 : ecdf_multiple X1 0 0 = 1 := by
    rw [ecdf_multiple_eq_cnt, show cntLe X1 0 0 = 1 from by decide]
    norm_num
  have h2 : ecdf_multiple (negMat X1) 0 0 = 1 := by
    rw [ecdf_multiple_eq_cnt, show cntLe (negMat X1) 0 0 = 1 from by decide]
    norm_num
  unfold decision_scores rawSum
  rw [Fin.sum_univ_one]
  unfold fitO
  rw [h1, h2]
  simp

/-- C7: row independence of query scoring: permuting the rows of the query
matrix permutes the scores the same way, the score at position `i` of the
permuted matrix being the score of row `π⁻¹ i` of the original. -/
theorem C7_row_permutation {n d m : ℕ} (Xtrain : Mat n d) (Y : Mat m d)
    (π : Equiv.Perm (Fin m)) (i : Fin m) :
    decision_function Xtrain (permRows π Y) i
      = decision_function Xtrain Y (π.symm i) := rfl

/-- Witness for C7 at a concrete input. -/
theorem C7_row_permutation_witness :
    decision_function X3 (permRows (Equiv.refl (Fin 10)) X10) 0
      = decision_function X3 X10 ((Equiv.refl (Fin 10)).symm 0) :=
  C7_row_permutation X3 X10 (Equiv.refl (Fin 10)) 0

/-- C8: `fit` is deterministic: two detectors fitted on the same training
matrix store the same training score vector, whatever their constructor
parameters (device included) and timing flags, the scores being a function
of the training matrix alone. -/
theorem C8_fit_deterministic (m1 m2 : ECOD) (rt1 rt2 : Bool) {n d : ℕ}
    (X : Mat n d) :
    (m1.fitState X rt1).decision_scores_ = (m2.fitState X rt2).decision_scores_ := rfl

/-- Witness for C8 at a concrete input. -/
theorem C8_fit_deterministic_witness :
    (ecodDefault.fitState X3 true).decision_scores_
      = (ecodScenario.fitState X3 false).decision_scores_ :=
  C8_fit_deterministic ecodDefault ecodScenario true false X3

/-- C9: evaluation of the code showing the fitted state does not retain the
reference distributions: two training matrices with different per-feature
empirical CDFs produce identical fitted states (every stored attribute
equal), so nothing `fit` retains can reproduce the reference; the
`decision_function` body moreover expects a stored `X_train` that `fit`
never assigns. -/
theorem C9_reference_not_retained :
    ecodDefault.fitState X2a false = ecodDefault.fitState X2b false ∧
    empiricalCDF (fun r => X2a r 0) 1 ≠ empiricalCDF (fun r => X2b r 0) 1 := by
  constructor
  · have hcnt : ∀ (i : Fin 2) (f : Fin 1), cntLe X2a i f = cntLe X2b i f := by decide
    have hcntn : ∀ (i : Fin 2) (f : Fin 1),
        cntLe (negMat X2a) i f = cntLe (negMat X2b) i f := by decide
    have hq : ∀ (i : Fin 2) (f : Fin 1),
        ecdf_multiple X2a i f = ecdf_multiple X2b i f := by
      intro i f
      rw [ecdf_multiple_eq_cnt, ecdf_multiple_eq_cnt, hcnt i f]
    have hr : ∀ (i : Fin 2) (f : Fin 1),
        ecdf_multiple (negMat X2a) i f = ecdf_multiple (negMat X2b) i f := by
      intro i f
      rw [ecdf_multiple_eq_cnt, ecdf_multiple_eq_cnt, hcntn i f]
    have hscore : decision_scores X2a = decision_scores X2b := by
      funext i
      unfold decision_scores rawSum fitO
      congr 1
      refine Finset.sum_congr rfl fun f _ => ?_
      rw [hq i f, hr i f]
    have hUl : (fun (i : Fin 2) (f : Fin 1) => -Real.log ((ecdf_multiple X2a i f : ℝ)))
        = (fun (i : Fin 2) (f : Fin 1) => -Real.log ((ecdf_multiple X2b i f : ℝ))) := by
      funext i f; rw [hq i f]
    have hUr : (fun (i : Fin 2) (f : Fin 1) =>
          -Real.log ((ecdf_multiple (negMat X2a) i f : ℝ)))
        = (fun (i : Fin 2) (f : Fin 1) =>
          -Real.log ((ecdf_multiple (negMat X2b) i f : ℝ))) := by
      funext i f; rw [hr i f]
    have hO : (fun (i : Fin 2) (f : Fin 1) => fitO X2a i f)
        = (fun (i : Fin 2) (f : Fin 1) => fitO X2b i f) := by
      funext i f; unfold fitO; rw [hq i f, hr i f]
    have hs2 : (fun (i : Fin 2) => decision_scores X2a i)
        = (fun (i : Fin 2) => decision_scores X2b i) := by
      funext i; exact congrFun hscore i
    unfold ECOD.fitState
    rw [hUl, hUr, hO, hs2, hscore]
  · have key : ∀ (Y : Mat 2 1) (c : ℕ),
        (Finset.univ.filter (fun r => Y r 0 ≤ 1)).card = c →
        empiricalCDF (fun r => Y r 0) 1 = (c : ℚ) / 2 := by
      intro Y c h
      unfold empiricalCDF
      rw [h]
      norm_num
    have ha := key X2a 2 (by decide)
    have hb := key X2b 1 (by decide)
    rw [ha, hb]
    norm_num

/-- C10: every stored training score is nonpositive: each tail probability
lies in the interval (0, 1], so each extremity is nonnegative, and the
stored score is the row sum of extremities multiplied by -1. -/
theorem C10_scores_nonpos (model : ECOD) (rt : Bool) {n d : ℕ} (X : Mat n d)
    (i : Fin n) :
    (model.fitState X rt).decision_scores_ i ≤ 0 := by
  show decision_scores X i ≤ 0
  have h : 0 ≤ rawSum X i := by
    refine Finset.sum_nonneg fun f _ => ?_
    rw [fitO_eq_neg_log_minTail]
    have h1 : (0 : ℝ) < (minTail X i f : ℝ) := by exact_mod_cast minTail_pos X i f
    have h2 : (minTail X i f : ℝ) ≤ 1 := by exact_mod_cast minTail_le_one X i f
    have h3 := Real.log_nonpos (le_of_lt h1) h2
    linarith
  unfold decision_scores
  rw [mul_neg_one]
  exact neg_nonpos.mpr h

/-- Witness for C10 at a concrete input. -/
theorem C10_scores_nonpos_witness :
    (ecodDefault.fitState X3 false).decision_scores_ 0 ≤ 0 :=
  C10_scores_nonpos ecodDefault false X3 0

end PyTod
